import Mathlib

/-!
Verification of `mardor.reader` (MAR archive reading support).

The module under study is `src/src/mardor/reader.py`: the `MarReader` class
with its lazy decompression cache (`fileobj` property and `decompress`),
the entry extraction pipeline (`extract_entry`, `extract`), signature
verification (`verify`) and the context-manager lifecycle
(`__enter__` / `__exit__`).

Modelling choices:
* Bytes are `Nat`; a byte stream is its full contents as a `List Nat`
  together with a read position.  Block iteration (`file_iter`) is
  flattened: a sequence of blocks is identified with its concatenation.
* Fallible operations return `Except MarError _`.
* The helpers `takeexactly`, `safejoin`, `get_signature_data` and the
  codecs live in `mardor.utils` / `mardor.signing`, which are not part of
  the source tree under study; they are modelled from the specification
  (each such definition says so in its doc comment).  Codecs and the
  external cryptographic verdict are passed in as function parameters.
* Side effects that the claims talk about (how many bytes of the file
  stream were read, how many verifiers were built and fed, how often the
  whole-archive decompression ran) are made observable with explicit
  counters.
-/

namespace Mardor

/-- A byte of the archive; modelled as `Nat`. -/
abbrev Byte := Nat

/-- A readable, seekable byte stream: the full backing contents plus the
current read position.  `file_iter` from the current position is
`data.drop pos`; `seek` replaces `pos`. -/
structure Stream where
  data : List Byte
  pos : Nat
deriving Repr, DecidableEq

/-- The `Decompression` enum of `mardor.reader` (values none/auto/bz2/xz). -/
inductive Decompression where
  | none
  | auto
  | bz2
  | xz
deriving Repr, DecidableEq

/-- An index entry: untrusted relative path (as its components), offset into
the post-whole-archive-decompression stream, and exact byte size. -/
structure IndexEntry where
  name : List String
  offset : Nat
  size : Nat
deriving Repr, DecidableEq

/-- One signature record: algorithm id and the raw signature bytes. -/
structure SigRecord where
  algorithm_id : Nat
  signature : List Byte
deriving Repr, DecidableEq

/-- The signature block: number of leading signed bytes, and the records. -/
structure Signatures where
  filesize : Nat
  sigs : List SigRecord
deriving Repr, DecidableEq

/-- The parsed archive description (`self.mardata` in the reader). -/
structure MarData where
  is_compressed : Bool
  data_offset : Nat
  data_length : Nat
  index_entries : List IndexEntry
  signatures : Option Signatures
deriving Repr, DecidableEq

/-- The supported signing algorithm ids (`mardor.signing.SigningAlgo`). -/
def SigningAlgo.SHA1 : Nat := 1

/-- The SHA384-class algorithm id of `mardor.signing.SigningAlgo`. -/
def SigningAlgo.SHA384 : Nat := 2

/-- Error taxonomy of the read path. -/
inductive MarError where
  /-- Raised when `takeexactly` found fewer bytes than requested. -/
  | lengthMismatch
  /-- Raised when `verify` met a record with an unrecognized algorithm id. -/
  | unsupportedAlgorithm (algo : Nat)
  /-- a constructed verifier rejected the data at finalization. -/
  | invalidSignature
  /-- Raised when `safejoin` refused a path escaping the destination. -/
  | pathTraversal
deriving Repr, DecidableEq

/-- Modelled from the spec: `mardor.utils.takeexactly` is not under src/.
The spec describes it as a bounded iterator that "yields exactly
`entry.size` bytes total (fails with a length-mismatch error if the
underlying stream is exhausted early — never silently pads or
truncates)". -/
def takeexactly (bs : List Byte) (n : Nat) : Except MarError (List Byte) :=
  if n ≤ bs.length then .ok (bs.take n) else .error .lengthMismatch

/-- Modelled from the spec: `mardor.utils.safejoin` is not under src/.
The spec says `extract` "computes a destination path by joining `destDir`
with the entry's name after neutralizing traversal components (the join
must refuse to place any output outside `destDir`)".  Paths are lists of
components; `..` pops one already-joined component and popping past the
join root is refused; `.` and empty components are dropped.  The helper
returns the neutralized relative components or `Option.none` on escape. -/
def neutralize (acc : List String) : List String → Option (List String)
  | [] => some acc
  | c :: rest =>
    if c = ".." then
      match acc with
      | [] => Option.none
      | _ :: _ => neutralize acc.dropLast rest
    else if c = "." ∨ c = "" then
      neutralize acc rest
    else
      neutralize (acc ++ [c]) rest

/-- Modelled from the spec: traversal-safe join (see `neutralize`). -/
def safejoin (base : List String) (name : List String) :
    Except MarError (List String) :=
  match neutralize [] name with
  | some rel => .ok (base ++ rel)
  | Option.none => .error .pathTraversal

/-- Modelled from the spec: `mardor.signing.get_signature_data` is not
under src/.  The spec: "obtain the masked byte stream covering the first
`fileSize` bytes of the (decompressed) file: the signature bytes
themselves, wherever they are embedded in the header region, must be
excluded or zeroed".  The masking of the header region is abstracted as
the parameter `mask`, applied to the leading `filesize` bytes. -/
def get_signature_data (mask : List Byte → List Byte)
    (data : List Byte) (filesize : Nat) : List Byte :=
  mask (data.take filesize)

/-- The reader state: raw stream, memoized decompressed spool, parsed
archive data, plus a counter of how many times the whole-archive
decompression has actually run (observable instrumentation). -/
structure Reader where
  raw : Stream
  decompressed : Option Stream
  mardata : MarData
  decompressCount : Nat
deriving Repr, DecidableEq

/-- The constructor `MarReader.__init__`: wraps a raw stream and the parsed archive data;
no decompressed spool exists yet. -/
def Reader.mk0 (raw : Stream) (md : MarData) : Reader :=
  ⟨raw, Option.none, md, 0⟩

/-- The flag `MarReader.is_compressed`, set at `__init__` from the parsed data. -/
def Reader.is_compressed (r : Reader) : Bool :=
  r.mardata.is_compressed

/-- The method `MarReader.decompress`: seek a fresh temporary spool to `data_offset`
(the gap `[0, data_offset)` of the spool therefore reads back as zero
bytes), seek the raw stream to `data_offset`, take exactly `data_length`
bytes, pipe them through the whole-archive XZ codec (`xz`, the fixed
codec `xz_decompress_stream`), write the output to the spool, rewind the
spool to position 0 and return it. -/
def Reader.decompress (xz : List Byte → List Byte) (r : Reader) :
    Except MarError Stream :=
  match takeexactly (r.raw.data.drop r.mardata.data_offset)
      r.mardata.data_length with
  | .error e => .error e
  | .ok payload => .ok ⟨List.replicate r.mardata.data_offset 0 ++ xz payload, 0⟩

/-- The `MarReader.fileobj` property: for an uncompressed archive return
the raw stream; for a compressed one, decompress on first access only and
cache the spool for all later accesses. -/
def Reader.fileobjAcc (xz : List Byte → List Byte) (r : Reader) :
    Except MarError (Stream × Reader) :=
  if r.mardata.is_compressed = false then
    .ok (r.raw, r)
  else
    match r.decompressed with
    | some s => .ok (s, r)
    | Option.none =>
      match r.decompress xz with
      | .error e => .error e
      | .ok s => .ok (s, { r with decompressed := some s,
                                  decompressCount := r.decompressCount + 1 })

/-- The method `MarReader.__exit__`: the body is `pass`; the reader state is left
untouched. -/
def Reader.exitCtx (r : Reader) : Reader :=
  r

/-- The method `MarReader.extract_entry`: seek the cache's stream to `e.offset`,
take exactly `e.size` bytes, then apply the mode's filter: `auto` runs
the sniffing decompressor, `bz2` forces the bz2 codec, `xz` and `none`
pass the bytes through unmodified (the `xz` branch of the source is
`pass`, and `none` matches no branch of the if/elif chain).  Returns the
produced bytes (blocks flattened) and the reader after the cache access. -/
def Reader.extract_entry (xz bz2dec autodec : List Byte → List Byte)
    (r : Reader) (e : IndexEntry) (mode : Decompression) :
    Except MarError (List Byte × Reader) :=
  match r.fileobjAcc xz with
  | .error err => .error err
  | .ok (fo, r1) =>
    match takeexactly (fo.data.drop e.offset) e.size with
    | .error err => .error err
    | .ok bytes =>
      let out :=
        if mode = Decompression.auto then autodec bytes
        else if mode = Decompression.bz2 then bz2dec bytes
        else bytes
      .ok (out, r1)

/-- Helper for `extract`: walk the index entries in stored order, joining
each name onto `destdir` with `safejoin` and draining the entry's block
sequence; any failure aborts the whole extraction. -/
def extractGo (xz bz2dec autodec : List Byte → List Byte)
    (destdir : List String) (mode : Decompression) :
    Reader → List IndexEntry →
    Except MarError (List (List String × List Byte) × Reader)
  | r, [] => .ok ([], r)
  | r, e :: rest =>
    match safejoin destdir e.name with
    | .error err => .error err
    | .ok path =>
      match r.extract_entry xz bz2dec autodec e mode with
      | .error err => .error err
      | .ok (bytes, r1) =>
        match extractGo xz bz2dec autodec destdir mode r1 rest with
        | .error err => .error err
        | .ok (tail, r2) => .ok ((path, bytes) :: tail, r2)

/-- The method `MarReader.extract`: extract every index entry into `destdir`.  The
result lists, in index order, each written destination path with the
bytes written to it. -/
def Reader.extract (xz bz2dec autodec : List Byte → List Byte)
    (r : Reader) (destdir : List String) (mode : Decompression) :
    Except MarError (List (List String × List Byte) × Reader) :=
  extractGo xz bz2dec autodec destdir mode r r.mardata.index_entries

/-- A constructed signature verifier: the algorithm family it was built
for, the signature bytes it was bound to, and the data fed so far. -/
structure Verifier where
  algo : Nat
  sigbytes : List Byte
  fed : List Byte
deriving Repr, DecidableEq

/-- The verifier-construction loop of `MarReader.verify`: for each record,
SHA1 builds a v1 verifier, SHA384 a v2 verifier, anything else raises the
unsupported-algorithm error.  The second component counts how many
verifiers were constructed (also when construction aborts). -/
def buildVerifiers : List SigRecord →
    (Except MarError (List Verifier)) × Nat
  | [] => (.ok [], 0)
  | sig :: rest =>
    if sig.algorithm_id = SigningAlgo.SHA1 ∨
       sig.algorithm_id = SigningAlgo.SHA384 then
      match buildVerifiers rest with
      | (.ok vs, n) =>
        (.ok (⟨sig.algorithm_id, sig.signature, []⟩ :: vs), n + 1)
      | (.error e, n) => (.error e, n + 1)
    else
      (.error (.unsupportedAlgorithm sig.algorithm_id), 0)

/-- Finalization of one verifier: the external cryptographic verdict
`check algo key sigbytes fed` decides validity; an invalid signature is
raised as the `InvalidSignature` exception. -/
def verifierFinalize (check : Nat → List Byte → List Byte → List Byte → Bool)
    (key : List Byte) (v : Verifier) : Except MarError Unit :=
  if check v.algo key v.sigbytes v.fed then .ok () else .error .invalidSignature

/-- The finalization loop of `MarReader.verify`: call `verify()` on each
verifier, catching `InvalidSignature` as an immediate `false`; if the
loop completes, return `true`. -/
def finalizeLoop (check : Nat → List Byte → List Byte → List Byte → Bool)
    (key : List Byte) : List Verifier → Except MarError Bool
  | [] => .ok true
  | v :: vs =>
    match verifierFinalize check key v with
    | .ok () => finalizeLoop check key vs
    | .error MarError.invalidSignature => .ok false
    | .error e => .error e

/-- Observable side effects of one `verify` call: bytes read from the file
stream, verifiers constructed, verifiers fed with the scanned data. -/
structure Effects where
  bytesRead : Nat
  verifiersBuilt : Nat
  verifiersFed : Nat
deriving Repr, DecidableEq

/-- The method `MarReader.verify`: return `false` when there is no signature block or
an empty signature list; build one verifier per record (aborting on an
unsupported algorithm); stream the masked signed range once, feeding each
block to every verifier; finalize each verifier, folding
`InvalidSignature` into a boolean `false`.  The post-state reader and the
observable effects are returned alongside the verdict. -/
def Reader.verify (xz mask : List Byte → List Byte)
    (check : Nat → List Byte → List Byte → List Byte → Bool)
    (key : List Byte) (r : Reader) :
    (Except MarError Bool) × Reader × Effects :=
  match r.mardata.signatures with
  | Option.none => (.ok false, r, ⟨0, 0, 0⟩)
  | some sb =>
    if sb.sigs.isEmpty then
      (.ok false, r, ⟨0, 0, 0⟩)
    else
      match buildVerifiers sb.sigs with
      | (.error e, n) => (.error e, r, ⟨0, n, 0⟩)
      | (.ok verifiers, n) =>
        match r.fileobjAcc xz with
        | .error e => (.error e, r, ⟨0, n, 0⟩)
        | .ok (fo, r1) =>
          let data := get_signature_data mask fo.data sb.filesize
          let fed := verifiers.map (fun v => { v with fed := data })
          (finalizeLoop check key fed, r1,
           ⟨(fo.data.take sb.filesize).length, n, fed.length⟩)

/-! ### Helper lemmas -/

theorem takeexactly_of_le {bs : List Byte} {n : Nat} (h : n ≤ bs.length) :
    takeexactly bs n = .ok (bs.take n) := by
  simp [takeexactly, h]

theorem takeexactly_of_lt {bs : List Byte} {n : Nat} (h : bs.length < n) :
    takeexactly bs n = .error .lengthMismatch := by
  simp [takeexactly, Nat.not_le.mpr h]

theorem safejoin_within {base name p : List String}
    (h : safejoin base name = .ok p) : base <+: p := by
  unfold safejoin at h
  cases hn : neutralize [] name with
  | some rel =>
    rw [hn] at h
    cases h
    exact List.prefix_append base rel
  | none =>
    rw [hn] at h
    cases h

theorem extractGo_within (xz bz2dec autodec : List Byte → List Byte)
    (destdir : List String) (mode : Decompression) :
    ∀ (r : Reader) (es : List IndexEntry) outs r2,
      extractGo xz bz2dec autodec destdir mode r es = .ok (outs, r2) →
      ∀ p bs, (p, bs) ∈ outs → destdir <+: p := by
  intro r es
  induction es generalizing r with
  | nil =>
    intro outs r2 h p bs hmem
    simp only [extractGo] at h
    cases h
    simp at hmem
  | cons e rest ih =>
    intro outs r2 h p bs hmem
    simp only [extractGo] at h
    cases hj : safejoin destdir e.name with
    | error err => rw [hj] at h; exact Except.noConfusion h
    | ok path =>
      simp only [hj] at h
      cases hx : r.extract_entry xz bz2dec autodec e mode with
      | error err => rw [hx] at h; exact Except.noConfusion h
      | ok br =>
        obtain ⟨bytes, r1⟩ := br
        simp only [hx] at h
        cases hg : extractGo xz bz2dec autodec destdir mode r1 rest with
        | error err => rw [hg] at h; exact Except.noConfusion h
        | ok tr =>
          obtain ⟨tail, r2'⟩ := tr
          simp only [hg] at h
          cases h
          rcases List.mem_cons.mp hmem with heq | htail
          · cases heq
            exact safejoin_within hj
          · exact ih r1 tail _ hg p bs htail

theorem buildVerifiers_supported (sigs : List SigRecord)
    (h : ∀ s ∈ sigs, s.algorithm_id = SigningAlgo.SHA1 ∨
        s.algorithm_id = SigningAlgo.SHA384) :
    buildVerifiers sigs =
      (.ok (sigs.map fun s => ⟨s.algorithm_id, s.signature, []⟩),
       sigs.length) := by
  induction sigs with
  | nil => simp [buildVerifiers]
  | cons sig rest ih =>
    have hsig := h sig (List.mem_cons_self sig rest)
    have hrest := ih (fun s hs => h s (List.mem_cons_of_mem sig hs))
    rw [buildVerifiers, if_pos hsig, hrest]
    rfl

theorem buildVerifiers_unsupported (sigs : List SigRecord)
    (h : ∃ s ∈ sigs, s.algorithm_id ≠ SigningAlgo.SHA1 ∧
        s.algorithm_id ≠ SigningAlgo.SHA384) :
    ∃ a n, buildVerifiers sigs = (.error (.unsupportedAlgorithm a), n) := by
  induction sigs with
  | nil => simp at h
  | cons sig rest ih =>
    by_cases hsig : sig.algorithm_id = SigningAlgo.SHA1 ∨
        sig.algorithm_id = SigningAlgo.SHA384
    · have hrest : ∃ s ∈ rest, s.algorithm_id ≠ SigningAlgo.SHA1 ∧
          s.algorithm_id ≠ SigningAlgo.SHA384 := by
        rcases h with ⟨s, hmem, hs⟩
        rcases List.mem_cons.mp hmem with heq | hm
        · subst heq
          rcases hsig with h1 | h2
          · exact absurd h1 hs.1
          · exact absurd h2 hs.2
        · exact ⟨s, hm, hs⟩
      rcases ih hrest with ⟨a, n, hbv⟩
      exact ⟨a, n + 1, by rw [buildVerifiers, if_pos hsig, hbv]⟩
    · exact ⟨sig.algorithm_id, 0, by rw [buildVerifiers, if_neg hsig]⟩

theorem finalizeLoop_eq_all
    (check : Nat → List Byte → List Byte → List Byte → Bool)
    (key : List Byte) (vs : List Verifier) :
    finalizeLoop check key vs =
      .ok (vs.all fun v => check v.algo key v.sigbytes v.fed) := by
  induction vs with
  | nil => simp [finalizeLoop]
  | cons v rest ih =>
    by_cases hv : check v.algo key v.sigbytes v.fed
    · simp [finalizeLoop, verifierFinalize, hv, ih]
    · simp [finalizeLoop, verifierFinalize, hv]

theorem fed_all_eq (check : Nat → List Byte → List Byte → List Byte → Bool)
    (key data : List Byte) (sigs : List SigRecord) :
    (((sigs.map fun s =>
          (⟨s.algorithm_id, s.signature, ([] : List Byte)⟩ : Verifier)).map
        fun v => { v with fed := data }).all
      fun v => check v.algo key v.sigbytes v.fed)
    = sigs.all fun s => check s.algorithm_id key s.signature data := by
  induction sigs with
  | nil => rfl
  | cons s rest ih => simp only [List.map_cons, List.all_cons, ih]

theorem verify_spec (xz mask : List Byte → List Byte)
    (check : Nat → List Byte → List Byte → List Byte → Bool)
    (key : List Byte) (r : Reader) (sb : Signatures)
    (hsb : r.mardata.signatures = some sb) (hne : sb.sigs ≠ [])
    (hsup : ∀ s ∈ sb.sigs, s.algorithm_id = SigningAlgo.SHA1 ∨
        s.algorithm_id = SigningAlgo.SHA384)
    (fo : Stream) (r1 : Reader) (hfo : r.fileobjAcc xz = .ok (fo, r1)) :
    r.verify xz mask check key =
      (.ok (sb.sigs.all fun s => check s.algorithm_id key s.signature
          (get_signature_data mask fo.data sb.filesize)),
       r1,
       ⟨(fo.data.take sb.filesize).length, sb.sigs.length,
        sb.sigs.length⟩) := by
  have hemp : sb.sigs.isEmpty = false := by
    cases hs : sb.sigs with
    | nil => exact absurd hs hne
    | cons a l => simp
  simp only [Reader.verify, hsb, hemp, Bool.false_eq_true, if_neg,
    not_false_iff, buildVerifiers_supported sb.sigs hsup, hfo,
    finalizeLoop_eq_all, List.length_map, fed_all_eq]

theorem takeexactly_ok_elim {bs : List Byte} {n : Nat} {out : List Byte}
    (h : takeexactly bs n = .ok out) : n ≤ bs.length ∧ out = bs.take n := by
  unfold takeexactly at h
  by_cases hn : n ≤ bs.length
  · rw [if_pos hn] at h
    cases h
    exact ⟨hn, rfl⟩
  · rw [if_neg hn] at h
    exact Except.noConfusion h

/-! ### Concrete fixtures used by the witnesses -/

/-- An uncompressed archive: six data bytes, one index entry, one SHA1
signature record. -/
def rU : Reader :=
  Reader.mk0 ⟨[1, 2, 3, 4, 5, 6], 0⟩
    ⟨false, 0, 0, [⟨["a.txt"], 1, 2⟩], some ⟨4, [⟨1, [9]⟩]⟩⟩

/-- An uncompressed archive with no signature block at all. -/
def rNoSig : Reader :=
  Reader.mk0 ⟨[1, 2, 3], 0⟩ ⟨false, 0, 0, [], Option.none⟩

/-- An uncompressed archive with one signature record of unknown
algorithm id 5. -/
def rBadAlgo : Reader :=
  Reader.mk0 ⟨[1, 2, 3], 0⟩ ⟨false, 0, 0, [], some ⟨4, [⟨5, [7]⟩]⟩⟩

/-- A compressed archive: data section of two bytes at offset one. -/
def rC : Reader :=
  Reader.mk0 ⟨[9, 10, 11, 12], 0⟩ ⟨true, 1, 2, [], Option.none⟩

/-- The decompressed spool of `rC` under the identity codec. -/
def sC : Stream := ⟨[0, 10, 11], 0⟩

/-- The state of `rC` after its first cache access (spool cached,
decompression ran once). -/
def rC1 : Reader :=
  ⟨⟨[9, 10, 11, 12], 0⟩, some sC, ⟨true, 1, 2, [], Option.none⟩, 1⟩

/-! ### The claims -/

/-- Claim C1: for an archive carrying at least one signature record, all of
a supported algorithm, `verify` returns `false` exactly when some
constructed verifier reports an invalid-signature condition at
finalization and `true` only when every verifier succeeds; the verdict is
always an `ok` boolean, so the invalid-signature condition never escapes
as an error. -/
theorem C1_verify_folds_invalid_signature
    (xz mask : List Byte → List Byte)
    (check : Nat → List Byte → List Byte → List Byte → Bool)
    (key : List Byte) (r : Reader) (sb : Signatures)
    (hsb : r.mardata.signatures = some sb) (hne : sb.sigs ≠ [])
    (hsup : ∀ s ∈ sb.sigs, s.algorithm_id = SigningAlgo.SHA1 ∨
        s.algorithm_id = SigningAlgo.SHA384)
    (fo : Stream) (r1 : Reader) (hfo : r.fileobjAcc xz = .ok (fo, r1)) :
    (r.verify xz mask check key).1 =
      .ok (sb.sigs.all fun s => check s.algorithm_id key s.signature
        (get_signature_data mask fo.data sb.filesize)) := by
  rw [verify_spec xz mask check key r sb hsb hne hsup fo r1 hfo]

/-- Witness for C1: on the concrete archive `rU`, with a verdict oracle
that rejects everything, `verify` returns the boolean `false`. -/
theorem C1_witness :
    (rU.verify id id (fun _ _ _ _ => false) []).1 = .ok false := by
  have h := C1_verify_folds_invalid_signature id id (fun _ _ _ _ => false)
    [] rU ⟨4, [⟨1, [9]⟩]⟩ rfl (by decide) (by decide) rU.raw rU rfl
  simpa using h

/-- Claim C2: every output path produced by a successful `extract` lies
strictly within the destination directory — the traversal-neutralizing
join makes `destdir` a prefix of each written path; names that would
escape make the call fail instead. -/
theorem C2_extract_within_destdir (xz bz2dec autodec : List Byte → List Byte)
    (r : Reader) (destdir : List String) (mode : Decompression)
    (outs : List (List String × List Byte)) (r2 : Reader)
    (h : r.extract xz bz2dec autodec destdir mode = .ok (outs, r2)) :
    ∀ p bs, (p, bs) ∈ outs → destdir <+: p :=
  extractGo_within xz bz2dec autodec destdir mode r r.mardata.index_entries
    outs r2 h

/-- Witness for C2: extracting the concrete archive `rU` into `["d"]`
writes `["d", "a.txt"]`, which has the destination as a prefix. -/
theorem C2_witness : (["d"] : List String) <+: ["d", "a.txt"] :=
  C2_extract_within_destdir id id id rU ["d"] Decompression.none
    [(["d", "a.txt"], [2, 3])] rU rfl ["d", "a.txt"] [2, 3]
    (by decide)

/-- Claim C3: on an archive with no signature block or an empty signature
list, `verify` returns `false` for every key, with no verifier
constructed, no byte of the file stream read, and the reader state (hence
the decompression cache) untouched. -/
theorem C3_verify_no_signatures (xz mask : List Byte → List Byte)
    (check : Nat → List Byte → List Byte → List Byte → Bool)
    (key : List Byte) (r : Reader)
    (h : r.mardata.signatures = Option.none ∨
        ∃ sb, r.mardata.signatures = some sb ∧ sb.sigs = []) :
    r.verify xz mask check key = (.ok false, r, ⟨0, 0, 0⟩) := by
  rcases h with h | ⟨sb, hsb, hsigs⟩
  · simp only [Reader.verify, h]
  · simp [Reader.verify, hsb, hsigs]

/-- Witness for C3: the concrete no-signature archive `rNoSig`. -/
theorem C3_witness :
    rNoSig.verify id id (fun _ _ _ _ => true) [] =
      (.ok false, rNoSig, ⟨0, 0, 0⟩) :=
  C3_verify_no_signatures id id (fun _ _ _ _ => true) [] rNoSig (.inl rfl)

/-- Claim C4: an archive whose signature list contains a record with an
algorithm id other than SHA1 or SHA384 makes `verify` fail with the
unsupported-algorithm error, with zero bytes of the file stream read, no
verifier fed any data, and the reader state untouched. -/
theorem C4_verify_unsupported_algorithm (xz mask : List Byte → List Byte)
    (check : Nat → List Byte → List Byte → List Byte → Bool)
    (key : List Byte) (r : Reader) (sb : Signatures)
    (hsb : r.mardata.signatures = some sb)
    (hbad : ∃ s ∈ sb.sigs, s.algorithm_id ≠ SigningAlgo.SHA1 ∧
        s.algorithm_id ≠ SigningAlgo.SHA384) :
    ∃ a n, r.verify xz mask check key =
      (.error (.unsupportedAlgorithm a), r, ⟨0, n, 0⟩) := by
  have hne : sb.sigs ≠ [] := by
    rcases hbad with ⟨s, hs, _⟩
    intro he
    rw [he] at hs
    simp at hs
  have hemp : sb.sigs.isEmpty = false := by
    cases hx : sb.sigs with
    | nil => exact absurd hx hne
    | cons a l => simp
  rcases buildVerifiers_unsupported sb.sigs hbad with ⟨a, n, hbv⟩
  refine ⟨a, n, ?_⟩
  simp only [Reader.verify, hsb, hemp, Bool.false_eq_true, if_neg,
    not_false_iff, hbv]

/-- Witness for C4: the concrete archive `rBadAlgo` whose single record
has algorithm id 5. -/
theorem C4_witness :
    ∃ a n, rBadAlgo.verify id id (fun _ _ _ _ => true) [] =
      (.error (.unsupportedAlgorithm a), rBadAlgo, ⟨0, n, 0⟩) :=
  C4_verify_unsupported_algorithm id id (fun _ _ _ _ => true) [] rBadAlgo
    ⟨4, [⟨5, [7]⟩]⟩ rfl ⟨⟨5, [7]⟩, by decide, by decide, by decide⟩

/-- Claim C5: the cache accessor is the identity on uncompressed archives
(the raw stream is returned and the reader, including its decompression
counter, is untouched); on a compressed archive with an empty cache, the
first access caches the spool and runs decompression exactly once, and
every later access returns the very same cached stream with the state,
hence the decompression counter, unchanged. -/
theorem C5_fileobj_cache (xz : List Byte → List Byte) (r : Reader) :
    (r.mardata.is_compressed = false → r.fileobjAcc xz = .ok (r.raw, r))
    ∧ (r.mardata.is_compressed = true → r.decompressed = Option.none →
        ∀ s r1, r.fileobjAcc xz = .ok (s, r1) →
          r1.decompressed = some s ∧
          r1.decompressCount = r.decompressCount + 1 ∧
          r1.fileobjAcc xz = .ok (s, r1)) := by
  constructor
  · intro h
    simp [Reader.fileobjAcc, h]
  · intro hc hd s r1 hfo
    rw [Reader.fileobjAcc, hc] at hfo
    rw [if_neg (by simp)] at hfo
    rw [hd] at hfo
    cases hx : r.decompress xz with
    | error e =>
      rw [hx] at hfo
      exact Except.noConfusion hfo
    | ok s2 =>
      rw [hx] at hfo
      injection hfo with hp
      injection hp with h1 h2
      subst h1
      subst h2
      refine ⟨rfl, rfl, ?_⟩
      rw [Reader.fileobjAcc]
      simp [hc]

/-- Witness for C5: on the concrete uncompressed archive `rU` the accessor
is the identity, and on the compressed archive `rC` the first access
produces the spool `sC` with counter 1 while the second access returns
the same spool and the same state. -/
theorem C5_witness :
    Reader.fileobjAcc id rU = .ok (rU.raw, rU) ∧
    (rC1.decompressed = some sC ∧
     rC1.decompressCount = rC.decompressCount + 1 ∧
     rC1.fileobjAcc id = .ok (sC, rC1)) :=
  ⟨(C5_fileobj_cache id rU).1 rfl,
   (C5_fileobj_cache id rC).2 rfl rfl sC rC1 rfl⟩

/-- Claim C6: extracting an entry with mode `none`, when the cache access
succeeds, yields exactly `e.size` bytes, byte-identical to the slice of
the cached stream starting at `e.offset`, with no decompression filter
applied; when the stream holds fewer than `e.size` bytes past the offset
the extraction fails with the length-mismatch error. -/
theorem C6_extract_entry_none_exact (xz bz2dec autodec : List Byte → List Byte)
    (r : Reader) (e : IndexEntry) (fo : Stream) (r1 : Reader)
    (hfo : r.fileobjAcc xz = .ok (fo, r1)) :
    (e.size ≤ fo.data.length - e.offset →
      r.extract_entry xz bz2dec autodec e Decompression.none =
        .ok ((fo.data.drop e.offset).take e.size, r1) ∧
      ((fo.data.drop e.offset).take e.size).length = e.size)
    ∧ (fo.data.length - e.offset < e.size →
      r.extract_entry xz bz2dec autodec e Decompression.none =
        .error .lengthMismatch) := by
  constructor
  · intro h
    have hle : e.size ≤ (fo.data.drop e.offset).length := by
      simpa [List.length_drop] using h
    constructor
    · simp [Reader.extract_entry, hfo, takeexactly_of_le hle]
    · simp only [List.length_take, List.length_drop]
      omega
  · intro h
    have hlt : (fo.data.drop e.offset).length < e.size := by
      simpa [List.length_drop] using h
    simp [Reader.extract_entry, hfo, takeexactly_of_lt hlt]

/-- Witness for C6: in the concrete archive `rU`, the entry at offset 1 of
size 2 extracts with mode `none` to the two bytes `[2, 3]`, the slice of
the raw stream at offset 1. -/
theorem C6_witness :
    Reader.extract_entry id id id rU ⟨["a.txt"], 1, 2⟩ Decompression.none =
      .ok ([2, 3], rU) ∧ ([2, 3] : List Byte).length = 2 := by
  have h := (C6_extract_entry_none_exact id id id rU ⟨["a.txt"], 1, 2⟩
    rU.raw rU rfl).1 (by decide)
  exact ⟨h.1, rfl⟩

/-- Claim C7: the whole-archive decompression applies the one fixed codec
`xz` to exactly `data_length` bytes taken from the raw stream starting at
`data_offset` (and fails instead if fewer are available); no
decompression-mode parameter reaches it — the reader state produced by
`extract_entry`, which triggers the cache, is the same for every mode. -/
theorem C7_decompress_fixed_codec (xz : List Byte → List Byte) (r : Reader)
    (s : Stream) (h : r.decompress xz = .ok s) :
    s.data = List.replicate r.mardata.data_offset 0 ++
        xz ((r.raw.data.drop r.mardata.data_offset).take r.mardata.data_length)
    ∧ r.mardata.data_length ≤ r.raw.data.length - r.mardata.data_offset
    ∧ ∀ (bz2dec autodec : List Byte → List Byte) (m : Decompression)
        (e : IndexEntry),
        (r.extract_entry xz bz2dec autodec e m).map Prod.snd =
        (r.extract_entry xz bz2dec autodec e Decompression.none).map
          Prod.snd := by
  rw [Reader.decompress] at h
  cases ht : takeexactly (r.raw.data.drop r.mardata.data_offset)
      r.mardata.data_length with
  | error err =>
    rw [ht] at h
    exact Except.noConfusion h
  | ok payload =>
    rw [ht] at h
    injection h with h1
    rcases takeexactly_ok_elim ht with ⟨hlen, hpay⟩
    subst h1
    refine ⟨by rw [hpay], by simpa [List.length_drop] using hlen, ?_⟩
    intro bz2dec autodec m e
    cases hfo : r.fileobjAcc xz with
    | error err => simp [Reader.extract_entry, hfo]
    | ok pr =>
      obtain ⟨fo, r1⟩ := pr
      cases ht2 : takeexactly (fo.data.drop e.offset) e.size with
      | error err => simp [Reader.extract_entry, hfo, ht2, Except.map]
      | ok bytes => simp [Reader.extract_entry, hfo, ht2, Except.map]

/-- Witness for C7: decompressing the concrete compressed archive `rC`
under the identity codec yields the spool contents: a one-byte zero gap
followed by the two payload bytes. -/
theorem C7_witness :
    sC.data = List.replicate 1 0 ++ id ((rC.raw.data.drop 1).take 2) :=
  (C7_decompress_fixed_codec id rC sC rfl).1

/-- Claim C8: extraction with mode `xz` passes the entry's bytes through
unmodified — it is exactly extraction with mode `none`, including the
error cases and the reader state. -/
theorem C8_extract_entry_xz_passthrough
    (xz bz2dec autodec : List Byte → List Byte) (r : Reader)
    (e : IndexEntry) :
    r.extract_entry xz bz2dec autodec e Decompression.xz =
    r.extract_entry xz bz2dec autodec e Decompression.none := by
  cases hfo : r.fileobjAcc xz with
  | error err => simp [Reader.extract_entry, hfo]
  | ok pr =>
    obtain ⟨fo, r1⟩ := pr
    cases ht : takeexactly (fo.data.drop e.offset) e.size with
    | error err => simp [Reader.extract_entry, hfo, ht]
    | ok bytes => simp [Reader.extract_entry, hfo, ht]

/-- Claim C9 counterexample: the reader `rC1` holds a live decompressed
spool, yet the context-manager exit path (`__exit__`, whose body is
`pass`) returns the state completely unchanged — the spool is still held
afterwards, so disposing the reader performs no release of the temporary
spool at all, contradicting release-on-teardown. -/
theorem C9_exit_counterexample :
    rC1.exitCtx = rC1 ∧ rC1.exitCtx.decompressed = some sC :=
  ⟨rfl, rfl⟩

/-- Claim C9 (amended): the context-manager exit path of the reader is a
no-op: it leaves the reader state, including any cached decompressed
spool, unchanged, so reader teardown itself releases nothing — reclaiming
the temporary file is left to the runtime's finalization of the file
object. -/
theorem C9_exit_is_noop (r : Reader) :
    r.exitCtx = r ∧ r.exitCtx.decompressed = r.decompressed :=
  ⟨rfl, rfl⟩

/-- Claim C10: for a compressed archive, decompression positions the
output at `data_offset` in the spool, so the spool's range
`[0, data_offset)` holds no archive data (only zero filler) and the
decompressed bytes occupy the same absolute offsets that index entries
and the signature `filesize` refer to; `extract_entry` and `verify`
therefore apply the stored offsets and the stored `filesize` directly to
the cached stream. -/
theorem C10_decompress_offset_invariant
    (xz mask bz2dec autodec : List Byte → List Byte)
    (check : Nat → List Byte → List Byte → List Byte → Bool)
    (key : List Byte) (r : Reader) (fo : Stream) (r1 : Reader)
    (hc : r.mardata.is_compressed = true) (hd : r.decompressed = Option.none)
    (hfo : r.fileobjAcc xz = .ok (fo, r1)) :
    fo.data.take r.mardata.data_offset =
      List.replicate r.mardata.data_offset 0
    ∧ fo.data.drop r.mardata.data_offset =
      xz ((r.raw.data.drop r.mardata.data_offset).take r.mardata.data_length)
    ∧ (∀ e : IndexEntry,
        r.extract_entry xz bz2dec autodec e Decompression.none =
          (takeexactly (fo.data.drop e.offset) e.size).map fun bs => (bs, r1))
    ∧ (∀ sb : Signatures, r.mardata.signatures = some sb → sb.sigs ≠ [] →
        (∀ s ∈ sb.sigs, s.algorithm_id = SigningAlgo.SHA1 ∨
            s.algorithm_id = SigningAlgo.SHA384) →
        (r.verify xz mask check key).1 =
          .ok (sb.sigs.all fun s => check s.algorithm_id key s.signature
            (get_signature_data mask fo.data sb.filesize))) := by
  have hstep := hfo
  rw [Reader.fileobjAcc, hc] at hstep
  rw [if_neg (by simp)] at hstep
  rw [hd] at hstep
  cases hx : r.decompress xz with
  | error e =>
    rw [hx] at hstep
    exact Except.noConfusion hstep
  | ok s2 =>
    rw [hx] at hstep
    injection hstep with hp
    injection hp with h1 h2
    rw [Reader.decompress] at hx
    cases ht : takeexactly (r.raw.data.drop r.mardata.data_offset)
        r.mardata.data_length with
    | error err =>
      rw [ht] at hx
      exact Except.noConfusion hx
    | ok payload =>
      rw [ht] at hx
      injection hx with h3
      rcases takeexactly_ok_elim ht with ⟨hlen, hpay⟩
      have hdata : fo.data = List.replicate r.mardata.data_offset 0 ++
          xz ((r.raw.data.drop r.mardata.data_offset).take
            r.mardata.data_length) := by
        rw [← h1, ← h3, hpay]
      refine ⟨?_, ?_, ?_, ?_⟩
      · rw [hdata]
        exact List.take_left' (List.length_replicate _ _)
      · rw [hdata]
        exact List.drop_left' (List.length_replicate _ _)
      · intro e
        cases ht2 : takeexactly (fo.data.drop e.offset) e.size with
        | error err => simp [Reader.extract_entry, hfo, ht2, Except.map]
        | ok bytes => simp [Reader.extract_entry, hfo, ht2, Except.map]
      · intro sb hsb hne hsup
        rw [verify_spec xz mask check key r sb hsb hne hsup fo r1 hfo]

/-- Witness for C10: in the concrete compressed archive `rC`, the cached
spool `sC` starts with a zero filler byte over `[0, 1)`. -/
theorem C10_witness :
    sC.data.take 1 = List.replicate 1 0 :=
  (C10_decompress_offset_invariant id id id id (fun _ _ _ _ => true) []
    rC sC rC1 rfl rfl rfl).1

end Mardor
